import Mathlib

/-!
Verification development for the hospital-MRF loader: the normalized charge-row
data model, the analytically-tuned Parquet writer (sort by cpt_code, fixed-size
row groups, bloom-filter configuration), the driver's skip-payer-charges flag,
and the reader emission rules.

The Parquet writer and the driver are translated from
src/cmd/hospital-loader/main.go (the internal writer package is concatenated
into that file).  The CSV/JSON reader implementations and the
HospitalChargeRow struct definition are absent from src/ (only their tests and
callers are present); those parts are modelled from the spec and are marked
with doc comments starting with: Modelled from the spec.

Monetary float64 payloads are carried as rationals: the code under
verification performs no arithmetic on them, it only stores, sorts (by
cpt_code, a string column) and moves them.
-/

namespace HospitalMRF

/-- Modelled from the spec: the HospitalChargeRow struct (internal package) is
absent from src/; its fields are taken from spec section 3.1 and from the
snake_case Parquet column names used in NewChargeWriter and asserted by the
tests.  Optional fields distinguish absent (none) from empty or zero. -/
structure HospitalChargeRow where
  hospital_name : String
  last_updated_on : String
  version : String
  hospital_location : String
  hospital_address : String
  license_number : Option String
  license_state : Option String
  affirmation : Bool
  description : String
  setting : String
  cpt_code : Option String
  hcpcs_code : Option String
  ms_drg_code : Option String
  ndc_code : Option String
  rc_code : Option String
  icd_code : Option String
  drg_code : Option String
  cdm_code : Option String
  local_code : Option String
  apc_code : Option String
  eapg_code : Option String
  hipps_code : Option String
  cdt_code : Option String
  r_drg_code : Option String
  s_drg_code : Option String
  aps_drg_code : Option String
  ap_drg_code : Option String
  apr_drg_code : Option String
  tris_drg_code : Option String
  gross_charge : Option Rat
  discounted_cash : Option Rat
  min_charge : Option Rat
  max_charge : Option Rat
  payer_name : Option String
  plan_name : Option String
  negotiated_dollar : Option Rat
  negotiated_percentage : Option Rat
  estimated_amount : Option Rat
  methodology : Option String
  negotiated_algorithm : Option String
  drug_unit_of_measurement : Option Rat
  drug_type_of_measurement : Option String
  additional_generic_notes : Option String
  additional_payer_notes : Option String
  modifiers : Option String
  deriving DecidableEq, Repr

/-- Code-point lexicographic comparison of character lists.  Go's
strings.Compare is bytewise on UTF-8, and bytewise UTF-8 order coincides with
code-point lexicographic order, so this is the order strings.Compare gives. -/
def cmpChars : List Char → List Char → Ordering
  | [], [] => .eq
  | [], _ :: _ => .lt
  | _ :: _, [] => .gt
  | a :: as, b :: bs =>
    if a < b then .lt else if b < a then .gt else cmpChars as bs

/-- Comparison of strings, modelling Go strings.Compare. -/
def cmpStr (a b : String) : Ordering := cmpChars a.data b.data

/-- cmpOptStr compares two optional strings, with nil (null) sorting first.
Translated from cmpOptStr in the writer source; Go returns -1, 0 or 1, here
rendered as Ordering.lt, .eq, .gt. -/
def cmpOptStr : Option String → Option String → Ordering
  | none, none => .eq
  | none, some _ => .lt
  | some _, none => .gt
  | some a, some b => cmpStr a b

theorem cmpChars_swap : ∀ as bs, cmpChars bs as = (cmpChars as bs).swap
  | [], [] => rfl
  | [], _ :: _ => rfl
  | _ :: _, [] => rfl
  | a :: as, b :: bs => by
    simp only [cmpChars]
    rcases lt_trichotomy a b with h | h | h
    · rw [if_neg (asymm h), if_pos h, if_pos h]
      rfl
    · subst h
      rw [if_neg (lt_irrefl a), if_neg (lt_irrefl a), if_neg (lt_irrefl a),
        if_neg (lt_irrefl a)]
      exact cmpChars_swap as bs
    · rw [if_pos h, if_neg (asymm h), if_pos h]
      rfl

theorem cmpChars_cons_ne_gt {a b : Char} {as bs : List Char} :
    cmpChars (a :: as) (b :: bs) ≠ .gt ↔
      a < b ∨ (a = b ∧ cmpChars as bs ≠ .gt) := by
  simp only [cmpChars]
  rcases lt_trichotomy a b with h | h | h
  · rw [if_pos h]
    simp [h]
  · subst h
    rw [if_neg (lt_irrefl a), if_neg (lt_irrefl a)]
    simp
  · rw [if_neg (asymm h), if_pos h]
    simp [asymm h, h.ne']

theorem cmpChars_trans_ne_gt :
    ∀ as bs cs, cmpChars as bs ≠ .gt → cmpChars bs cs ≠ .gt →
      cmpChars as cs ≠ .gt
  | [], _, [], _, _ => by simp [cmpChars]
  | [], _, _ :: _, _, _ => by simp [cmpChars]
  | _ :: _, [], _, h1, _ => absurd rfl h1
  | _ :: _, _ :: _, [], _, h2 => absurd rfl h2
  | a :: as, b :: bs, c :: cs, h1, h2 => by
    rcases cmpChars_cons_ne_gt.mp h1 with hab | ⟨hab, h1r⟩ <;>
      rcases cmpChars_cons_ne_gt.mp h2 with hbc | ⟨hbc, h2r⟩
    · exact cmpChars_cons_ne_gt.mpr (Or.inl (lt_trans hab hbc))
    · exact cmpChars_cons_ne_gt.mpr (Or.inl (hbc ▸ hab))
    · exact cmpChars_cons_ne_gt.mpr (Or.inl (hab ▸ hbc))
    · exact cmpChars_cons_ne_gt.mpr
        (Or.inr ⟨hab.trans hbc, cmpChars_trans_ne_gt as bs cs h1r h2r⟩)

theorem cmpOptStr_swap (a b : Option String) :
    cmpOptStr b a = (cmpOptStr a b).swap := by
  cases a <;> cases b
  · rfl
  · rfl
  · rfl
  · exact cmpChars_swap _ _

theorem cmpOptStr_trans_ne_gt {a b c : Option String}
    (h1 : cmpOptStr a b ≠ .gt) (h2 : cmpOptStr b c ≠ .gt) :
    cmpOptStr a c ≠ .gt := by
  cases a <;> cases b <;> cases c <;>
    simp_all [cmpOptStr, cmpStr]
  exact cmpChars_trans_ne_gt _ _ _ h1 h2

theorem cmpOptStr_none_left (a : Option String) : cmpOptStr none a ≠ .gt := by
  cases a <;> simp [cmpOptStr]

theorem cmpOptStr_some_none (s : String) : cmpOptStr (some s) none = .gt := rfl

/-- The order used by the sort in ChargeWriter.Close: the cmpOptStr comparator
applied to cpt_code does not report greater. -/
def cptLe (a b : HospitalChargeRow) : Prop :=
  cmpOptStr a.cpt_code b.cpt_code ≠ .gt

instance : DecidableRel cptLe := fun a b =>
  inferInstanceAs (Decidable (cmpOptStr a.cpt_code b.cpt_code ≠ .gt))

instance : IsTotal HospitalChargeRow cptLe :=
  ⟨fun a b => by
    unfold cptLe
    by_cases h : cmpOptStr a.cpt_code b.cpt_code = .gt
    · right
      rw [cmpOptStr_swap, h]
      simp [Ordering.swap]
    · exact Or.inl h⟩

instance : IsTrans HospitalChargeRow cptLe :=
  ⟨fun _ _ _ h1 h2 => cmpOptStr_trans_ne_gt h1 h2⟩

/-- RowsPerGroup controls how many rows go into each Parquet row group;
translated from the writer constants. -/
def RowsPerGroup : Nat := 50000

/-- bloomBitsPerValue controls bloom filter sizing; translated from the writer
constants (10 bits per value, about one percent false positive rate). -/
def bloomBitsPerValue : Nat := 10

/-- ChargeWriter state: the in-memory buffer of rows (the Go field rows) and
the row groups already flushed to the output Parquet file.  The Go struct also
holds the OS file handle and the parquet-go writer object; the file contents
they carry are modelled by fileGroups. -/
structure ChargeWriter where
  rows : List HospitalChargeRow
  fileGroups : List (List HospitalChargeRow)
  deriving DecidableEq, Repr

/-- NewChargeWriter: fresh writer with an empty buffer over a newly created
(empty) output file. -/
def newChargeWriter : ChargeWriter := ⟨[], []⟩

/-- Write buffers rows.  Translated from the Go method, which appends to
w.rows and returns (len(rows), nil) unconditionally: it touches neither the
parquet writer nor the file and cannot fail.  The Option String component
models the Go error return value (none is the nil error). -/
def ChargeWriter.write (w : ChargeWriter) (rows : List HospitalChargeRow) :
    ChargeWriter × Nat × Option String :=
  ({ w with rows := w.rows ++ rows }, rows.length, none)

/-- The row-group loop of Close: for i := 0; i < len(rows); i += RowsPerGroup,
write the slice rows[i:min(i+RowsPerGroup, len)] and flush, each iteration
producing one row group. -/
def chunkRows : List HospitalChargeRow → List (List HospitalChargeRow)
  | [] => []
  | x :: xs =>
    (x :: xs).take RowsPerGroup :: chunkRows ((x :: xs).drop RowsPerGroup)
  termination_by l => l.length
  decreasing_by
    simp only [List.length_drop, RowsPerGroup, List.length_cons]
    omega

/-- Close sorts all buffered rows by cpt_code with slices.SortFunc over
cmpOptStr, then writes them to the file in RowsPerGroup-sized chunks,
flushing after each chunk, and finalizes the file.  slices.SortFunc promises
a permutation of the input sorted under the comparator (and nothing more);
List.insertionSort cptLe is the executable refinement of that contract used
here, and sortFuncSpec below states the contract itself. -/
def ChargeWriter.close (w : ChargeWriter) : ChargeWriter :=
  let sorted := List.insertionSort cptLe w.rows
  { rows := sorted, fileGroups := w.fileGroups ++ chunkRows sorted }

/-- Contract of Go slices.SortFunc as invoked by Close: the output is some
permutation of the buffered rows that is sorted under the cmpOptStr order on
cpt_code.  The Go documentation of slices.SortFunc states that the sort is
not guaranteed to be stable, so every output satisfying this relation is an
admissible result. -/
def sortFuncSpec (input output : List HospitalChargeRow) : Prop :=
  output.Perm input ∧ output.Pairwise cptLe

/-- Stability by insertion order of a sort keyed on cpt_code: for every key,
the rows carrying that key appear in the output in the same order as in the
input. -/
def tiesInInsertionOrder (input output : List HospitalChargeRow) : Prop :=
  ∀ k : Option String,
    output.filter (fun r => r.cpt_code == k) =
      input.filter (fun r => r.cpt_code == k)

/-- Repeated Write calls, as the driver performs them batch by batch. -/
def writeAll (w : ChargeWriter) (batches : List (List HospitalChargeRow)) :
    ChargeWriter :=
  batches.foldl (fun acc b => (acc.write b).1) w

theorem writeAll_rows (w : ChargeWriter)
    (batches : List (List HospitalChargeRow)) :
    (writeAll w batches).rows = w.rows ++ batches.flatten := by
  induction batches generalizing w with
  | nil => simp [writeAll]
  | cons b bs ih =>
    simp [writeAll, ChargeWriter.write, List.foldl_cons] at ih ⊢
    rw [ih]
    simp [List.append_assoc]

theorem writeAll_fileGroups (w : ChargeWriter)
    (batches : List (List HospitalChargeRow)) :
    (writeAll w batches).fileGroups = w.fileGroups := by
  induction batches generalizing w with
  | nil => rfl
  | cons b bs ih =>
    simp only [writeAll, List.foldl_cons]
    exact ih _

theorem chunkRows_flatten : ∀ l : List HospitalChargeRow,
    (chunkRows l).flatten = l
  | [] => by rw [chunkRows]; rfl
  | x :: xs => by
    rw [chunkRows]
    rw [List.flatten_cons, chunkRows_flatten ((x :: xs).drop RowsPerGroup),
      List.take_append_drop]
  termination_by l => l.length
  decreasing_by
    simp only [List.length_drop, RowsPerGroup, List.length_cons]
    omega

theorem chunkRows_length_le : ∀ l : List HospitalChargeRow,
    ∀ g ∈ chunkRows l, g.length ≤ RowsPerGroup
  | [] => by rw [chunkRows]; intro g hg; cases hg
  | x :: xs => by
    rw [chunkRows]
    intro g hg
    rcases List.mem_cons.mp hg with h | h
    · subst h
      simp [List.length_take]
    · exact chunkRows_length_le ((x :: xs).drop RowsPerGroup) g h
  termination_by l => l.length
  decreasing_by
    simp only [List.length_drop, RowsPerGroup, List.length_cons]
    omega

theorem chunkRows_eq_nil_iff (l : List HospitalChargeRow) :
    chunkRows l = [] ↔ l = [] := by
  cases l with
  | nil => rw [chunkRows]; simp
  | cons x xs => rw [chunkRows]; simp

theorem chunkRows_dropLast : ∀ l : List HospitalChargeRow,
    ∀ g ∈ (chunkRows l).dropLast, g.length = RowsPerGroup
  | [] => by rw [chunkRows]; intro g hg; cases hg
  | x :: xs => by
    rw [chunkRows]
    by_cases hd : (x :: xs).drop RowsPerGroup = []
    · rw [hd, chunkRows]
      intro g hg
      cases hg
    · rw [List.dropLast_cons_of_ne_nil
        ((not_iff_not.mpr (chunkRows_eq_nil_iff _)).mpr hd)]
      intro g hg
      rcases List.mem_cons.mp hg with h | h
      · subst h
        have hlen : RowsPerGroup ≤ (x :: xs).length := by
          by_contra hc
          exact hd (List.drop_eq_nil_of_le (le_of_not_le hc))
        rw [List.length_take]
        exact Nat.min_eq_left hlen
      · exact chunkRows_dropLast ((x :: xs).drop RowsPerGroup) g h
  termination_by l => l.length
  decreasing_by
    simp only [List.length_drop, RowsPerGroup, List.length_cons]
    omega

theorem chunkRows_getLast_mod : ∀ l : List HospitalChargeRow,
    l.length % RowsPerGroup ≠ 0 →
    ((chunkRows l).getLast?).map List.length = some (l.length % RowsPerGroup)
  | [] => by
    intro h
    exact absurd (by simp) h
  | x :: xs => by
    intro h
    rw [chunkRows]
    by_cases hd : (x :: xs).drop RowsPerGroup = []
    · rw [hd, chunkRows]
      have hlen : (x :: xs).length ≤ RowsPerGroup := by
        by_contra hc
        rw [List.drop_eq_nil_iff] at hd
        omega
      have hlt : (x :: xs).length < RowsPerGroup := by
        rcases lt_or_eq_of_le hlen with hlt | heq
        · exact hlt
        · exact absurd (by rw [heq]; simp) h
      have htake : (List.take RowsPerGroup (x :: xs)).length
          = (x :: xs).length % RowsPerGroup := by
        rw [List.length_take, Nat.min_eq_right hlen, Nat.mod_eq_of_lt hlt]
      simp [htake]
    · have hrec := chunkRows_getLast_mod ((x :: xs).drop RowsPerGroup)
      have hlen : RowsPerGroup ≤ (x :: xs).length := by
        by_contra hc
        exact hd (List.drop_eq_nil_of_le (le_of_not_le hc))
      have hmod : ((x :: xs).drop RowsPerGroup).length % RowsPerGroup
          = (x :: xs).length % RowsPerGroup := by
        rw [List.length_drop, ← Nat.mod_eq_sub_mod hlen]
      rcases hne : chunkRows ((x :: xs).drop RowsPerGroup) with _ | ⟨r, rs⟩
      · exact absurd ((chunkRows_eq_nil_iff _).mp hne) hd
      · rw [List.getLast?_cons_cons, ← hne, hrec (by rw [hmod]; exact h), hmod]
  termination_by l => l.length
  decreasing_by
    simp only [List.length_drop, RowsPerGroup, List.length_cons]
    omega

theorem cptLe_none_right {a b : HospitalChargeRow} (h : cptLe a b)
    (hb : b.cpt_code = none) : a.cpt_code = none := by
  unfold cptLe at h
  rw [hb] at h
  cases ha : a.cpt_code with
  | none => rfl
  | some s =>
    rw [ha] at h
    exact absurd (cmpOptStr_some_none s) h

/-- After any sequence of Write calls from a fresh writer, the file contents
produced by Close are the RowsPerGroup-chunking of the sorted buffer. -/
theorem close_new_fileGroups (batches : List (List HospitalChargeRow)) :
    (writeAll newChargeWriter batches).close.fileGroups
      = chunkRows (List.insertionSort cptLe
          (writeAll newChargeWriter batches).rows) := by
  show (writeAll newChargeWriter batches).fileGroups ++ _ = _
  rw [writeAll_fileGroups]
  rfl

/-- Sample rows used by witnesses and counterexamples. -/
def blankRow : HospitalChargeRow where
  hospital_name := "Test General Hospital"
  last_updated_on := "2024-01-15"
  version := "2.0.0"
  hospital_location := "New York, NY"
  hospital_address := "123 Main St"
  license_number := none
  license_state := none
  affirmation := true
  description := ""
  setting := "outpatient"
  cpt_code := none
  hcpcs_code := none
  ms_drg_code := none
  ndc_code := none
  rc_code := none
  icd_code := none
  drg_code := none
  cdm_code := none
  local_code := none
  apc_code := none
  eapg_code := none
  hipps_code := none
  cdt_code := none
  r_drg_code := none
  s_drg_code := none
  aps_drg_code := none
  ap_drg_code := none
  apr_drg_code := none
  tris_drg_code := none
  gross_charge := none
  discounted_cash := none
  min_charge := none
  max_charge := none
  payer_name := none
  plan_name := none
  negotiated_dollar := none
  negotiated_percentage := none
  estimated_amount := none
  methodology := none
  negotiated_algorithm := none
  drug_unit_of_measurement := none
  drug_type_of_measurement := none
  additional_generic_notes := none
  additional_payer_notes := none
  modifiers := none

def rowA : HospitalChargeRow := { blankRow with description := "A" }

def rowB : HospitalChargeRow := { blankRow with description := "B" }

def rowC : HospitalChargeRow :=
  { blankRow with description := "C", cpt_code := some "93306" }

/-- C1: for every sequence of Write calls, after Close the rows written to the
Parquet file are globally sorted by cpt_code ascending in the cmpOptStr order
(the comparator never reports greater for an earlier row against a later one),
and a null cpt_code never follows a non-null one. -/
theorem close_globally_sorted_by_cpt
    (batches : List (List HospitalChargeRow)) :
    ((writeAll newChargeWriter batches).close.fileGroups.flatten).Pairwise
      (fun a b => cmpOptStr a.cpt_code b.cpt_code ≠ .gt ∧
        (b.cpt_code = none → a.cpt_code = none)) := by
  rw [close_new_fileGroups, chunkRows_flatten]
  exact (List.sorted_insertionSort cptLe _).imp
    (fun h => ⟨h, fun hb => cptLe_none_right h hb⟩)

/-- C2: Close partitions the sorted buffer into consecutive row groups: their
concatenation is the sorted buffer, every group holds at most
RowsPerGroup = 50000 rows, every group but the last holds exactly 50000, and
when the buffered row count n is not a multiple of 50000 the final group
holds n mod 50000 rows. -/
theorem close_row_group_sizes (batches : List (List HospitalChargeRow)) :
    ((writeAll newChargeWriter batches).close.fileGroups.flatten
        = List.insertionSort cptLe (writeAll newChargeWriter batches).rows) ∧
    (∀ g ∈ (writeAll newChargeWriter batches).close.fileGroups,
        g.length ≤ RowsPerGroup) ∧
    (∀ g ∈ ((writeAll newChargeWriter batches).close.fileGroups).dropLast,
        g.length = RowsPerGroup) ∧
    ((writeAll newChargeWriter batches).rows.length % RowsPerGroup ≠ 0 →
      (((writeAll newChargeWriter batches).close.fileGroups).getLast?).map
          List.length
        = some ((writeAll newChargeWriter batches).rows.length
            % RowsPerGroup)) := by
  rw [close_new_fileGroups]
  refine ⟨chunkRows_flatten _, chunkRows_length_le _, chunkRows_dropLast _,
    fun h => ?_⟩
  have hlen : (List.insertionSort cptLe
      (writeAll newChargeWriter batches).rows).length
      = (writeAll newChargeWriter batches).rows.length :=
    (List.perm_insertionSort cptLe _).length_eq
  rw [chunkRows_getLast_mod _ (by rw [hlen]; exact h), hlen]

/-- Witness for C2 at a three-row buffer: 3 is not a multiple of 50000 and the
final (only) row group of the closed writer holds 3 mod 50000 rows. -/
theorem close_row_group_sizes_witness :
    ((writeAll newChargeWriter [[rowA, rowB, rowC]]).rows.length
        % RowsPerGroup ≠ 0) ∧
    ((((writeAll newChargeWriter [[rowA, rowB, rowC]]).close.fileGroups).getLast?).map
        List.length
      = some ((writeAll newChargeWriter [[rowA, rowB, rowC]]).rows.length
          % RowsPerGroup)) :=
  ⟨by decide, (close_row_group_sizes [[rowA, rowB, rowC]]).2.2.2 (by decide)⟩

/-- C3: for every multiset of rows handed to Write across any number of calls,
the rows read back from the Parquet file written by Close (the concatenation
of its row groups) are exactly that multiset, row values carried verbatim. -/
theorem close_roundtrip_multiset (batches : List (List HospitalChargeRow)) :
    ((writeAll newChargeWriter batches).close.fileGroups.flatten).Perm
      batches.flatten := by
  rw [close_new_fileGroups, chunkRows_flatten, writeAll_rows]
  exact (List.perm_insertionSort cptLe _).trans
    (by rw [show newChargeWriter.rows = [] from rfl, List.nil_append])

/-- C8: Write only appends to the in-memory buffer: across any sequence of
Write calls the output file contents are untouched, the buffer is extended by
exactly the rows passed, and each call returns the slice length with a nil
error. -/
theorem write_buffers_only (w : ChargeWriter)
    (batches : List (List HospitalChargeRow)) :
    ((writeAll w batches).fileGroups = w.fileGroups) ∧
    ((writeAll w batches).rows = w.rows ++ batches.flatten) ∧
    (∀ rows, (w.write rows).1.fileGroups = w.fileGroups ∧
      (w.write rows).2.1 = rows.length ∧ (w.write rows).2.2 = none) :=
  ⟨writeAll_fileGroups w batches, writeAll_rows w batches,
    fun _ => ⟨rfl, rfl, rfl⟩⟩

/-- C9 counterexample: a Write performed after Close has returned still
succeeds as a normal operation: it returns the row count 1 and a nil error,
contradicting the claim that no operation is valid after CLOSED. -/
theorem write_after_close_succeeds :
    ((newChargeWriter.close).write [rowA]).2.2 = none ∧
    ((newChargeWriter.close).write [rowA]).2.1 = 1 :=
  ⟨rfl, rfl⟩

/-- C9 amended: Close performs the sort and the row-group flushes, but the
writer tracks no state machine: a Write after Close succeeds normally
(returning the row count and a nil error), appending to the in-memory buffer
while leaving the file contents unchanged. -/
theorem write_after_close_behavior (w : ChargeWriter)
    (rows : List HospitalChargeRow) :
    ((w.close).write rows).2.2 = none ∧
    ((w.close).write rows).2.1 = rows.length ∧
    ((w.close).write rows).1.fileGroups = (w.close).fileGroups ∧
    ((w.close).write rows).1.rows = (w.close).rows ++ rows :=
  ⟨rfl, rfl, rfl, rfl⟩

/-- C6 counterexample: the slices.SortFunc contract admits an output for a
two-row buffer with equal (null) cpt_code keys in which the rows do not
appear in insertion order, so stability is not guaranteed by Close. -/
theorem close_sort_not_stable :
    sortFuncSpec [rowA, rowB] [rowB, rowA] ∧
    ¬ tiesInInsertionOrder [rowA, rowB] [rowB, rowA] := by
  refine ⟨⟨List.Perm.swap rowA rowB [], ?_⟩, fun h => absurd (h none) ?_⟩
  · refine List.pairwise_cons.mpr ⟨?_, List.pairwise_singleton _ _⟩
    intro r hr
    rw [List.mem_singleton.mp hr]
    decide
  · decide

/-- C6 amended: Close guarantees only a sorted permutation of the buffer
(slices.SortFunc is not guaranteed stable), so for every cpt_code key the
rows carrying that key are preserved as a multiset, not necessarily in
insertion order. -/
theorem close_sort_ties_multiset (input output : List HospitalChargeRow)
    (h : sortFuncSpec input output) (k : Option String) :
    (output.filter (fun r => r.cpt_code == k)).Perm
      (input.filter (fun r => r.cpt_code == k)) :=
  h.1.filter _

/-- Witness for the amended C6 at the concrete admissible output of the
counterexample buffer, keyed on the null cpt_code. -/
theorem close_sort_ties_multiset_witness :
    sortFuncSpec [rowA, rowB] [rowB, rowA] ∧
    (([rowB, rowA].filter (fun r => r.cpt_code == (none : Option String))).Perm
      ([rowA, rowB].filter (fun r => r.cpt_code == (none : Option String)))) :=
  ⟨⟨List.Perm.swap rowA rowB [], by
      refine List.pairwise_cons.mpr ⟨?_, List.pairwise_singleton _ _⟩
      intro r hr
      rw [List.mem_singleton.mp hr]
      decide⟩,
    close_sort_ties_multiset [rowA, rowB] [rowB, rowA]
      ⟨List.Perm.swap rowA rowB [], by
        refine List.pairwise_cons.mpr ⟨?_, List.pairwise_singleton _ _⟩
        intro r hr
        rw [List.mem_singleton.mp hr]
        decide⟩ none⟩

/-- The columns given a SplitBlockFilter with bloomBitsPerValue bits per value
in NewChargeWriter, in source order; translated from the parquet.BloomFilters
option list of the writer constructor. -/
def bloomFilterColumns : List String :=
  ["cpt_code", "hcpcs_code", "ms_drg_code", "ndc_code", "rc_code",
   "icd_code", "drg_code", "cdm_code", "local_code", "apc_code",
   "eapg_code", "hipps_code", "cdt_code", "r_drg_code", "s_drg_code",
   "aps_drg_code", "ap_drg_code", "apr_drg_code", "tris_drg_code",
   "payer_name", "plan_name"]

/-- The 19 optional code columns of the data model, in the order the spec and
claim C4 list them. -/
def codeColumns : List String :=
  ["cpt_code", "hcpcs_code", "ms_drg_code", "ndc_code", "rc_code",
   "icd_code", "drg_code", "cdm_code", "local_code", "apc_code",
   "eapg_code", "hipps_code", "cdt_code", "r_drg_code", "s_drg_code",
   "aps_drg_code", "ap_drg_code", "apr_drg_code", "tris_drg_code"]

/-- C4: the writer configures a bloom filter at 10 bits per value on exactly
the 19 code columns followed by payer_name and plan_name, and on no other
column: the configured list equals the 19-element code-column list plus the
two payer columns. -/
theorem bloom_filter_configuration :
    bloomFilterColumns = codeColumns ++ ["payer_name", "plan_name"] ∧
    codeColumns.length = 19 ∧
    bloomBitsPerValue = 10 :=
  ⟨rfl, rfl, rfl⟩

/-- Modelled from the spec: the reader sources (internal CSV and JSON readers)
are absent from src/.  Payer-specific pricing for one payer or plan pair, as
listed in spec section 3.1 under payer pricing. -/
structure PayerCharge where
  payer_name : String
  plan_name : String
  negotiated_dollar : Option Rat
  negotiated_percentage : Option Rat
  estimated_amount : Option Rat
  methodology : Option String
  negotiated_algorithm : Option String
  additional_payer_notes : Option String
  deriving DecidableEq, Repr

/-- Modelled from the spec: one unit of reader input, a source CSV body line
or a JSON (item, setting) pair: the non-payer row data together with the
payer entries found for it. -/
structure SourceLine where
  base : HospitalChargeRow
  payers : List PayerCharge
  deriving DecidableEq, Repr

/-- Modelled from the spec: the emitted no-payer row, the base data with every
payer field absent (spec section 3.1, invariant 2). -/
def noPayerRow (line : SourceLine) : HospitalChargeRow :=
  { line.base with
    payer_name := none
    plan_name := none
    negotiated_dollar := none
    negotiated_percentage := none
    estimated_amount := none
    methodology := none
    negotiated_algorithm := none
    additional_payer_notes := none }

/-- Modelled from the spec: the emitted payer row for one payer entry. -/
def payerRow (line : SourceLine) (p : PayerCharge) : HospitalChargeRow :=
  { line.base with
    payer_name := some p.payer_name
    plan_name := some p.plan_name
    negotiated_dollar := p.negotiated_dollar
    negotiated_percentage := p.negotiated_percentage
    estimated_amount := p.estimated_amount
    methodology := p.methodology
    negotiated_algorithm := p.negotiated_algorithm
    additional_payer_notes := p.additional_payer_notes }

/-- Modelled from the spec: a Wide payer pair is emitted when it has a
non-empty negotiated_dollar, methodology, negotiated_percentage or
estimated_amount for the source row. -/
def hasPayerData (p : PayerCharge) : Bool :=
  p.negotiated_dollar.isSome || p.methodology.isSome ||
  p.negotiated_percentage.isSome || p.estimated_amount.isSome

/-- Modelled from the spec: at least one of gross_charge, discounted_cash,
min_charge, max_charge is present on the source line. -/
def hasGrossData (line : SourceLine) : Bool :=
  line.base.gross_charge.isSome || line.base.discounted_cash.isSome ||
  line.base.min_charge.isSome || line.base.max_charge.isSome

/-- Modelled from the spec, section 4.2 Wide layout: one payer row per
discovered pair with data (suppressed entirely under skip_payer_charges), and
a no-payer row only when no payer rows were emitted and some gross pricing is
present. -/
def emitWide (skip : Bool) (line : SourceLine) : List HospitalChargeRow :=
  let payerRows :=
    if skip then [] else (line.payers.filter hasPayerData).map (payerRow line)
  if payerRows.isEmpty then
    if hasGrossData line then [noPayerRow line] else []
  else payerRows

/-- Modelled from the spec, section 4.2 Tall layout: each body row produces
exactly one charge row, a no-payer row when the payer_name column is blank
(payers empty); under skip_payer_charges the payer row is suppressed and a
single no-payer row is emitted when gross pricing is present. -/
def emitTall (skip : Bool) (line : SourceLine) : List HospitalChargeRow :=
  if skip then
    if hasGrossData line then [noPayerRow line] else []
  else
    match line.payers with
    | [] => [noPayerRow line]
    | p :: _ => [payerRow line p]

/-- Modelled from the spec, section 4.3: one emitted row per (setting, payer)
pair, exactly one no-payer row when a standard_charges entry has no
payers_information, and under skip_payer_charges one no-payer row per
(item, setting). -/
def emitJSONSetting (skip : Bool) (line : SourceLine) :
    List HospitalChargeRow :=
  if skip then [noPayerRow line]
  else
    match line.payers with
    | [] => [noPayerRow line]
    | ps => ps.map (payerRow line)

/-- Modelled from the spec: tagged reader input covering the reader variants
the driver can construct. -/
inductive SourceItem where
  | tallLine (line : SourceLine)
  | wideLine (line : SourceLine)
  | jsonSetting (line : SourceLine)
  deriving DecidableEq, Repr

/-- The source line carried by a reader input item. -/
def SourceItem.line : SourceItem → SourceLine
  | .tallLine l => l
  | .wideLine l => l
  | .jsonSetting l => l

/-- Rows emitted for one reader input item under the given
skip_payer_charges setting. -/
def emitItem (skip : Bool) : SourceItem → List HospitalChargeRow
  | .tallLine l => emitTall skip l
  | .wideLine l => emitWide skip l
  | .jsonSetting l => emitJSONSetting skip l

theorem noPayerRow_payer_none (line : SourceLine) :
    (noPayerRow line).payer_name = none ∧
    (noPayerRow line).plan_name = none :=
  ⟨rfl, rfl⟩

theorem emitItem_true_payer_none (item : SourceItem) :
    ∀ r ∈ emitItem true item, r.payer_name = none ∧ r.plan_name = none := by
  intro r hr
  cases item with
  | tallLine l =>
    simp only [emitItem, emitTall, if_pos] at hr
    rcases hb : hasGrossData l with _ | _ <;> rw [hb] at hr
    · cases hr
    · rw [if_pos rfl, List.mem_singleton] at hr
      rw [hr]
      exact noPayerRow_payer_none l
  | wideLine l =>
    simp only [emitItem, emitWide, List.isEmpty_nil, if_pos] at hr
    rcases hb : hasGrossData l with _ | _ <;> rw [hb] at hr
    · cases hr
    · rw [if_pos rfl, List.mem_singleton] at hr
      rw [hr]
      exact noPayerRow_payer_none l
  | jsonSetting l =>
    simp only [emitItem, emitJSONSetting, if_pos, List.mem_singleton] at hr
    rw [hr]
    exact noPayerRow_payer_none l

/-- C5: with skip_payer_charges set to true, no emitted row carries a
payer_name or plan_name, and a single no-payer row for the source line is
still emitted whenever at least one of gross_charge, discounted_cash,
min_charge, max_charge is non-empty. -/
theorem skip_payer_charges_emission (item : SourceItem) :
    (∀ r ∈ emitItem true item, r.payer_name = none ∧ r.plan_name = none) ∧
    (hasGrossData item.line = true →
      emitItem true item = [noPayerRow item.line]) := by
  refine ⟨emitItem_true_payer_none item, fun h => ?_⟩
  cases item with
  | tallLine l =>
    simp only [SourceItem.line] at h
    simp [emitItem, emitTall, h, SourceItem.line]
  | wideLine l =>
    simp only [SourceItem.line] at h
    simp [emitItem, emitWide, h, SourceItem.line]
  | jsonSetting l =>
    simp [emitItem, emitJSONSetting, SourceItem.line]

/-- Sample payer entry and source line used by witnesses. -/
def payerEx : PayerCharge where
  payer_name := "Aetna"
  plan_name := "PPO"
  negotiated_dollar := some 150
  negotiated_percentage := none
  estimated_amount := none
  methodology := some "fee_schedule"
  negotiated_algorithm := none
  additional_payer_notes := none

def lineEx : SourceLine where
  base := { blankRow with
            description := "X-RAY CHEST"
            gross_charge := some 250 }
  payers := [payerEx]

/-- Witness for C5 at a concrete Wide source line with gross pricing and one
payer entry. -/
theorem skip_payer_charges_emission_witness :
    hasGrossData (SourceItem.wideLine lineEx).line = true ∧
    emitItem true (SourceItem.wideLine lineEx)
      = [noPayerRow (SourceItem.wideLine lineEx).line] :=
  ⟨by decide,
    (skip_payer_charges_emission (SourceItem.wideLine lineEx)).2 (by decide)⟩

/-- Modelled from the spec: the Wide-CSV reader implementation is absent from
src/; its plan-name mapping is pinned by the Wide test in the repository
(TestCSVReaderWideToParquet), which asserts plan_name "Choice Plus" for the
header plan segment Choice_Plus and "PPO" for PPO: underscores in the
header-encoded plan segment are replaced with spaces before the value is
placed in plan_name. -/
def widePlanName (hdrPlan : String) : String :=
  ⟨hdrPlan.data.map (fun c => if c = '_' then ' ' else c)⟩

/-- C7 counterexample: the plan segment Choice_Plus of a Wide header is not
taken as-is: the reader produces "Choice Plus", not "Choice_Plus", exactly as
the repository's Wide test asserts. -/
theorem wide_plan_name_not_preserved :
    widePlanName "Choice_Plus" ≠ "Choice_Plus" ∧
    widePlanName "Choice_Plus" = "Choice Plus" := by
  constructor
  · decide
  · decide

/-- C7 amended: the plan segment of a Wide standard_charge header has its
underscores replaced with spaces when placed in plan_name (so Choice_Plus
yields "Choice Plus"), and a plan segment containing no underscore passes
through unchanged. -/
theorem wide_plan_name_underscores_to_spaces :
    (∀ s : String, (∀ c ∈ s.data, c ≠ '_') → widePlanName s = s) ∧
    widePlanName "Choice_Plus" = "Choice Plus" := by
  constructor
  · intro s h
    unfold widePlanName
    have hmap : s.data.map (fun c => if c = '_' then ' ' else c) = s.data := by
      conv_rhs => rw [← List.map_id s.data]
      exact List.map_congr_left (fun c hc => by simp [h c hc])
    rw [hmap]
  · decide

/-- Witness for the amended C7 at the underscore-free plan segment PPO. -/
theorem wide_plan_name_underscores_to_spaces_witness :
    (∀ c ∈ "PPO".data, c ≠ '_') ∧ widePlanName "PPO" = "PPO" :=
  ⟨by decide, wide_plan_name_underscores_to_spaces.1 "PPO" (by decide)⟩

/-- The -skip-payer-charges command-line flag of the driver: a Bool flag
whose default value is true; none models the flag not being passed on the
command line.  Translated from the flag.Bool call in main. -/
def skipPayerChargesFlag : Option Bool → Bool
  | none => true
  | some b => b

/-- The driver's convert pipeline: construct a reader with SkipPayerCharges
set from the flag, emit rows for every reader item, feed them to the Parquet
writer batch by batch (one Write per item here; Write only concatenates, so
batching boundaries do not affect the buffer), and Close. -/
def convertPipeline (passed : Option Bool) (items : List SourceItem) :
    ChargeWriter :=
  (writeAll newChargeWriter
    (items.map (emitItem (skipPayerChargesFlag passed)))).close

/-- C10: unless -skip-payer-charges is explicitly passed as false, the driver
runs the reader with SkipPayerCharges = true, so the produced Parquet file
contains no row with payer_name or plan_name set. -/
theorem default_flag_no_payer_rows (passed : Option Bool)
    (h : passed ≠ some false) (items : List SourceItem) :
    ∀ r ∈ (convertPipeline passed items).fileGroups.flatten,
      r.payer_name = none ∧ r.plan_name = none := by
  have hskip : skipPayerChargesFlag passed = true := by
    cases passed with
    | none => rfl
    | some b =>
      cases b with
      | false => exact absurd rfl h
      | true => rfl
  intro r hr
  unfold convertPipeline at hr
  rw [hskip, close_new_fileGroups, chunkRows_flatten] at hr
  have hr2 : r ∈ (items.map (emitItem true)).flatten := by
    have hmem := (List.perm_insertionSort cptLe _).mem_iff.mp hr
    rw [writeAll_rows] at hmem
    simpa [newChargeWriter] using hmem
  rcases List.mem_flatten.mp hr2 with ⟨rows, hrows, hrrows⟩
  rcases List.mem_map.mp hrows with ⟨item, _, rfl⟩
  exact emitItem_true_payer_none item r hrrows

/-- Witness for C10: the flag not passed at all (default), one Wide source
item carrying a payer entry. -/
theorem default_flag_no_payer_rows_witness :
    ((none : Option Bool) ≠ some false) ∧
    (∀ r ∈ (convertPipeline none [SourceItem.wideLine lineEx]).fileGroups.flatten,
      r.payer_name = none ∧ r.plan_name = none) :=
  ⟨by decide,
    default_flag_no_payer_rows none (by decide) [SourceItem.wideLine lineEx]⟩

end HospitalMRF
